import Mathlib

/-!
Verification development for the peiyao_project front-end.

The repository is a small React front-end with two views:

* `src/App.tsx` — a gallery of image rows from the `unlockeddata` table,
  kept in sync through an initial bulk fetch and a realtime feed of
  INSERT / UPDATE / DELETE events.  It exists in an unbounded variant and
  a bounded variant capped at 16 records, the latter with a user-initiated
  optimistic delete (`handleDelete`).
* `src/setting.tsx` — a layout editor for draggable/resizable frames
  whose geometry is debounce-persisted, plus a duplicate-cleanup routine
  (`handleCleanup`) over the `currentdata` and `lockeddata` tables.

This file gives a shallow embedding of the state-transforming parts of
that code (the realtime handlers, the initial-load cleaning, the local
delete, the drag-move handler, and the cleanup row selection) and proves
the specified properties about them.  Numbers that are JavaScript floats
are modelled as rationals, timestamps as integers, and nullable /
optional fields as `Option`.
-/

namespace Peiyao

/-- JavaScript truthiness of a `string | null` value: `null` and the
empty string are falsy, every other string is truthy.  This is the test
performed by `!!r.image_url` and by the guard `!newRow?.image_url`. -/
def jsTruthy : Option String → Bool
  | none => false
  | some s => s ≠ ""

/-- Row of the `unlockeddata` table as typed in `App.tsx`:
`{ id: string; image_url: string | null; created_at?: string | null }`.
The `created_at` field is optional and nullable, hence the nested
`Option`. -/
structure UnlockedRow where
  id : String
  image_url : Option String
  created_at : Option (Option String)
deriving DecidableEq, Repr

/-- Cleaning step of `fetchImages` (both variants): keep only rows with a
truthy `image_url` and normalise `created_at` with `r.created_at ?? null`
(so the field becomes present, possibly null). -/
def cleaned (data : List UnlockedRow) : List UnlockedRow :=
  (data.filter fun r => jsTruthy r.image_url).map fun r =>
    { id := r.id, image_url := r.image_url, created_at := some (r.created_at.getD none) }

/-- Realtime INSERT handler of the unbounded gallery variant: ignore the
row if `image_url` is falsy, otherwise drop any existing row with the
same `id` and prepend the new row. -/
def insertUnbounded (newRow : UnlockedRow) (prev : List UnlockedRow) : List UnlockedRow :=
  if jsTruthy newRow.image_url then
    newRow :: prev.filter fun r => r.id ≠ newRow.id
  else prev

/-- Realtime INSERT handler of the bounded gallery variant: like the
unbounded one but the resulting list is truncated to its first 16
entries (`.slice(0, 16)`). -/
def insertBounded (newRow : UnlockedRow) (prev : List UnlockedRow) : List UnlockedRow :=
  if jsTruthy newRow.image_url then
    (newRow :: prev.filter fun r => r.id ≠ newRow.id).take 16
  else prev

/-- Shallow merge `{ ...r, ...updated }`: the fields present on the
update payload (`id` and `image_url` always, `created_at` when present)
overwrite the fields of `r`. -/
def mergeRow (r updated : UnlockedRow) : UnlockedRow :=
  { id := updated.id
    image_url := updated.image_url
    created_at := updated.created_at.or r.created_at }

/-- Realtime UPDATE handler (identical in both variants): rewrite in
place every row whose `id` matches the payload, leaving the rest of the
list untouched. -/
def updateRows (updated : UnlockedRow) (prev : List UnlockedRow) : List UnlockedRow :=
  prev.map fun r => if r.id = updated.id then mergeRow r updated else r

/-- Realtime DELETE handler (identical in both variants): remove every
row whose `id` matches the deleted payload row. -/
def deleteRows (deleted : UnlockedRow) (prev : List UnlockedRow) : List UnlockedRow :=
  prev.filter fun r => r.id ≠ deleted.id

/-- Events that mutate the gallery collection: completion of the initial
bulk load (which overwrites the collection with the cleaned response)
and the three realtime events. -/
inductive GalleryEvent where
  | load (data : List UnlockedRow)
  | insert (newRow : UnlockedRow)
  | update (updated : UnlockedRow)
  | delete (deleted : UnlockedRow)
deriving DecidableEq

/-- Apply one event to the unbounded gallery state. -/
def applyEventU (prev : List UnlockedRow) : GalleryEvent → List UnlockedRow
  | .load data => cleaned data
  | .insert newRow => insertUnbounded newRow prev
  | .update updated => updateRows updated prev
  | .delete deleted => deleteRows deleted prev

/-- Apply one event to the bounded gallery state; the load result is
truncated with `.slice(0, 16)` and the INSERT handler caps at 16. -/
def applyEventB (prev : List UnlockedRow) : GalleryEvent → List UnlockedRow
  | .load data => (cleaned data).take 16
  | .insert newRow => insertBounded newRow prev
  | .update updated => updateRows updated prev
  | .delete deleted => deleteRows deleted prev

/-- Run a sequence of events against the unbounded gallery, starting
from the initial empty collection. -/
def runU (es : List GalleryEvent) : List UnlockedRow :=
  es.foldl applyEventU []

/-- Run a sequence of events against the bounded gallery, starting from
the initial empty collection. -/
def runB (es : List GalleryEvent) : List UnlockedRow :=
  es.foldl applyEventB []

/-- Well-formedness of a single event: load responses return rows with
pairwise distinct ids; the realtime events are unconstrained. -/
def eventLoadOk : GalleryEvent → Prop
  | .load data => (data.map UnlockedRow.id).Nodup
  | _ => True

instance : DecidablePred eventLoadOk := fun e => by
  cases e <;> simp [eventLoadOk] <;> infer_instance

/-! ### Helper lemmas about id distinctness -/

/-- The cleaning step keeps the id column a sublist of the response ids. -/
lemma map_id_cleaned (data : List UnlockedRow) :
    (cleaned data).map UnlockedRow.id = (data.filter fun r => jsTruthy r.image_url).map UnlockedRow.id := by
  simp [cleaned, List.map_map, Function.comp]

lemma nodup_cleaned {data : List UnlockedRow}
    (h : (data.map UnlockedRow.id).Nodup) :
    ((cleaned data).map UnlockedRow.id).Nodup := by
  rw [map_id_cleaned]
  exact ((data.filter_sublist).map UnlockedRow.id).nodup h

lemma nodup_insertUnbounded {newRow : UnlockedRow} {prev : List UnlockedRow}
    (h : (prev.map UnlockedRow.id).Nodup) :
    ((insertUnbounded newRow prev).map UnlockedRow.id).Nodup := by
  unfold insertUnbounded
  split
  · rw [List.map_cons, List.nodup_cons]
    constructor
    · intro hmem
      obtain ⟨r, hr, hrid⟩ := List.mem_map.mp hmem
      have := (List.mem_filter.mp hr).2
      simp only [decide_not, Bool.not_eq_eq_eq_not, Bool.not_true, decide_eq_false_iff_not] at this
      exact this hrid
    · exact ((prev.filter_sublist).map UnlockedRow.id).nodup h
  · exact h

lemma nodup_insertBounded {newRow : UnlockedRow} {prev : List UnlockedRow}
    (h : (prev.map UnlockedRow.id).Nodup) :
    ((insertBounded newRow prev).map UnlockedRow.id).Nodup := by
  unfold insertBounded
  split
  · rename_i htruthy
    have h16 : ((insertUnbounded newRow prev).map UnlockedRow.id).Nodup :=
      nodup_insertUnbounded h
    rw [insertUnbounded, if_pos htruthy] at h16
    exact ((List.take_sublist 16 _).map UnlockedRow.id).nodup h16
  · exact h

/-- The UPDATE handler does not change the id column at all. -/
lemma map_id_updateRows (updated : UnlockedRow) (prev : List UnlockedRow) :
    (updateRows updated prev).map UnlockedRow.id = prev.map UnlockedRow.id := by
  unfold updateRows
  rw [List.map_map]
  apply List.map_congr_left
  intro r _
  by_cases hid : r.id = updated.id
  · simp [Function.comp, hid, mergeRow]
  · simp [Function.comp, hid]

lemma nodup_updateRows {updated : UnlockedRow} {prev : List UnlockedRow}
    (h : (prev.map UnlockedRow.id).Nodup) :
    ((updateRows updated prev).map UnlockedRow.id).Nodup := by
  rw [map_id_updateRows]; exact h

lemma nodup_deleteRows {deleted : UnlockedRow} {prev : List UnlockedRow}
    (h : (prev.map UnlockedRow.id).Nodup) :
    ((deleteRows deleted prev).map UnlockedRow.id).Nodup :=
  ((prev.filter_sublist).map UnlockedRow.id).nodup h

lemma nodup_foldl_applyEventU (es : List GalleryEvent) :
    ∀ (init : List UnlockedRow), ((init.map UnlockedRow.id).Nodup) →
      (∀ e ∈ es, eventLoadOk e) →
      (((es.foldl applyEventU init).map UnlockedRow.id).Nodup) := by
  induction es with
  | nil => intro init h _; simpa using h
  | cons e es ih =>
      intro init h hok
      rw [List.foldl_cons]
      refine ih _ ?_ (fun x hx => hok x (List.mem_cons_of_mem _ hx))
      have he := hok e (List.mem_cons_self _ _)
      cases e with
      | load data => exact nodup_cleaned he
      | insert newRow => exact nodup_insertUnbounded h
      | update updated => exact nodup_updateRows h
      | delete deleted => exact nodup_deleteRows h

lemma nodup_foldl_applyEventB (es : List GalleryEvent) :
    ∀ (init : List UnlockedRow), ((init.map UnlockedRow.id).Nodup) →
      (∀ e ∈ es, eventLoadOk e) →
      (((es.foldl applyEventB init).map UnlockedRow.id).Nodup) := by
  induction es with
  | nil => intro init h _; simpa using h
  | cons e es ih =>
      intro init h hok
      rw [List.foldl_cons]
      refine ih _ ?_ (fun x hx => hok x (List.mem_cons_of_mem _ hx))
      have he := hok e (List.mem_cons_self _ _)
      cases e with
      | load data =>
          exact ((List.take_sublist 16 _).map UnlockedRow.id).nodup (nodup_cleaned he)
      | insert newRow => exact nodup_insertBounded h
      | update updated => exact nodup_updateRows h
      | delete deleted => exact nodup_deleteRows h

/-! ### Claim C1 -/

/-- C1.  For every sequence of load / insert / update / delete events in
which each bulk-load response has pairwise distinct ids, the resulting
gallery collection never contains two records sharing an id — in the
unbounded and in the bounded variant alike. -/
theorem gallery_ids_nodup (es : List GalleryEvent)
    (hload : ∀ e ∈ es, eventLoadOk e) :
    ((runU es).map UnlockedRow.id).Nodup ∧ ((runB es).map UnlockedRow.id).Nodup :=
  ⟨nodup_foldl_applyEventU es [] (by simp) hload,
   nodup_foldl_applyEventB es [] (by simp) hload⟩

/-- Concrete instance of `gallery_ids_nodup`: a load of two rows followed
by an insert, an update and a delete keeps the ids distinct. -/
theorem gallery_ids_nodup_witness :
    ((runU [GalleryEvent.load [⟨"a", some "u1", none⟩, ⟨"b", some "u2", none⟩],
            GalleryEvent.insert ⟨"c", some "u3", none⟩,
            GalleryEvent.update ⟨"a", some "u4", none⟩,
            GalleryEvent.delete ⟨"b", some "u2", none⟩]).map UnlockedRow.id).Nodup ∧
    ((runB [GalleryEvent.load [⟨"a", some "u1", none⟩, ⟨"b", some "u2", none⟩],
            GalleryEvent.insert ⟨"c", some "u3", none⟩,
            GalleryEvent.update ⟨"a", some "u4", none⟩,
            GalleryEvent.delete ⟨"b", some "u2", none⟩]).map UnlockedRow.id).Nodup :=
  gallery_ids_nodup _ (by decide)

/-! ### Claim C6 — updates merge in place and never insert -/

/-- C6.  An UPDATE event whose id matches no record is a no-op (the
collection is returned unchanged, the row is never inserted); when the
id matches, the payload is shallow-merged into the matching record at
its existing position, and every position of the list is preserved. -/
theorem gallery_update_noop_or_merge (updated : UnlockedRow) (prev : List UnlockedRow) :
    ((∀ r ∈ prev, r.id ≠ updated.id) → updateRows updated prev = prev) ∧
    (∀ n : ℕ, (updateRows updated prev)[n]? =
      (prev[n]?).map fun r => if r.id = updated.id then mergeRow r updated else r) := by
  constructor
  · intro h
    unfold updateRows
    have : prev.map (fun r => if r.id = updated.id then mergeRow r updated else r)
        = prev.map id := by
      apply List.map_congr_left
      intro r hr
      simp [if_neg (h r hr)]
    rw [this, List.map_id]
  · intro n
    unfold updateRows
    exact List.getElem?_map _ prev n

/-- Concrete instance of `gallery_update_noop_or_merge`: an update whose
id is unknown leaves a two-row collection unchanged, and an in-range
index is rewritten exactly by the merge. -/
theorem gallery_update_noop_or_merge_witness :
    updateRows ⟨"z", some "u", none⟩ [⟨"a", some "u1", none⟩, ⟨"b", some "u2", none⟩]
      = [⟨"a", some "u1", none⟩, ⟨"b", some "u2", none⟩] ∧
    (updateRows ⟨"b", none, some (some "t")⟩ [⟨"a", some "u1", none⟩, ⟨"b", some "u2", none⟩])[1]?
      = some ⟨"b", none, some (some "t")⟩ :=
  ⟨(gallery_update_noop_or_merge ⟨"z", some "u", none⟩ _).1 (by decide),
   by rw [(gallery_update_noop_or_merge ⟨"b", none, some (some "t")⟩ _).2 1]; rfl⟩

/-! ### Truthiness invariant of the gallery collection -/

/-- Every record of a collection has a truthy `image_url`. -/
def rowsTruthy (s : List UnlockedRow) : Prop :=
  ∀ r ∈ s, jsTruthy r.image_url = true

lemma rowsTruthy_cleaned (data : List UnlockedRow) : rowsTruthy (cleaned data) := by
  intro r hr
  unfold cleaned at hr
  obtain ⟨r0, hr0, hmap⟩ := List.mem_map.mp hr
  have := (List.mem_filter.mp hr0).2
  rw [← hmap]
  simpa using this

lemma rowsTruthy_take {s : List UnlockedRow} (n : ℕ) (h : rowsTruthy s) :
    rowsTruthy (s.take n) :=
  fun r hr => h r ((List.take_sublist n s).mem hr)

lemma rowsTruthy_insertUnbounded {newRow : UnlockedRow} {prev : List UnlockedRow}
    (h : rowsTruthy prev) : rowsTruthy (insertUnbounded newRow prev) := by
  unfold insertUnbounded
  split
  · rename_i htruthy
    intro r hr
    rcases List.mem_cons.mp hr with hr | hr
    · rw [hr]; exact htruthy
    · exact h r ((prev.filter_sublist).mem hr)
  · exact h

lemma rowsTruthy_insertBounded {newRow : UnlockedRow} {prev : List UnlockedRow}
    (h : rowsTruthy prev) : rowsTruthy (insertBounded newRow prev) := by
  unfold insertBounded
  split
  · rename_i htruthy
    apply rowsTruthy_take
    intro r hr
    rcases List.mem_cons.mp hr with hr | hr
    · rw [hr]; exact htruthy
    · exact h r ((prev.filter_sublist).mem hr)
  · exact h

lemma rowsTruthy_deleteRows {deleted : UnlockedRow} {prev : List UnlockedRow}
    (h : rowsTruthy prev) : rowsTruthy (deleteRows deleted prev) :=
  fun r hr => h r ((prev.filter_sublist).mem hr)

/-- Discriminator for UPDATE events. -/
def GalleryEvent.isUpdate : GalleryEvent → Bool
  | .update _ => true
  | _ => false

lemma rowsTruthy_foldl_applyEventU (es : List GalleryEvent) :
    ∀ (init : List UnlockedRow), rowsTruthy init →
      (∀ e ∈ es, e.isUpdate = false) →
      rowsTruthy (es.foldl applyEventU init) := by
  induction es with
  | nil => intro init h _; simpa using h
  | cons e es ih =>
      intro init h hup
      rw [List.foldl_cons]
      refine ih _ ?_ (fun x hx => hup x (List.mem_cons_of_mem _ hx))
      have he := hup e (List.mem_cons_self _ _)
      cases e with
      | load data => exact rowsTruthy_cleaned data
      | insert newRow => exact rowsTruthy_insertUnbounded h
      | update updated => simp [GalleryEvent.isUpdate] at he
      | delete deleted => exact rowsTruthy_deleteRows h

lemma rowsTruthy_foldl_applyEventB (es : List GalleryEvent) :
    ∀ (init : List UnlockedRow), rowsTruthy init →
      (∀ e ∈ es, e.isUpdate = false) →
      rowsTruthy (es.foldl applyEventB init) := by
  induction es with
  | nil => intro init h _; simpa using h
  | cons e es ih =>
      intro init h hup
      rw [List.foldl_cons]
      refine ih _ ?_ (fun x hx => hup x (List.mem_cons_of_mem _ hx))
      have he := hup e (List.mem_cons_self _ _)
      cases e with
      | load data => exact rowsTruthy_take 16 (rowsTruthy_cleaned data)
      | insert newRow => exact rowsTruthy_insertBounded h
      | update updated => simp [GalleryEvent.isUpdate] at he
      | delete deleted => exact rowsTruthy_deleteRows h

/-! ### Claim C8 — corrected -/

/-- Event sequence that puts a record with a null `image_url` into the
collection: a normal insert followed by an UPDATE whose payload carries
`image_url: null`.  The UPDATE handler has no `image_url` guard, so the
merge nulls the field of the stored record. -/
def c8Events : List GalleryEvent :=
  [GalleryEvent.insert ⟨"1", some "u", none⟩,
   GalleryEvent.update ⟨"1", none, none⟩]

/-- Counterexample to C8 as stated: after `c8Events` the collection (in
either variant) consists of exactly one record whose `image_url` is
absent (null) — so a record with an absent `image_url` does appear in
the collection. -/
theorem gallery_absent_url_counterexample :
    runU c8Events = [⟨"1", none, none⟩] ∧
    runB c8Events = [⟨"1", none, none⟩] ∧
    (⟨"1", none, none⟩ : UnlockedRow).image_url = none := by
  refine ⟨?_, ?_, rfl⟩ <;> rfl

/-- C8 amended.  An insert whose `image_url` is absent is ignored by
both variants for every prior state; the initial-load cleaning keeps
only truthy `image_url` rows; and over event sequences with no UPDATE
events, every record in the collection has a truthy `image_url` (an
UPDATE can overwrite the field of an existing record with null, which is
why updates must be excluded). -/
theorem gallery_absent_url_amended :
    (∀ (newRow : UnlockedRow) (prev : List UnlockedRow), newRow.image_url = none →
        insertUnbounded newRow prev = prev ∧ insertBounded newRow prev = prev) ∧
    (∀ data : List UnlockedRow, rowsTruthy (cleaned data)) ∧
    (∀ es : List GalleryEvent, (∀ e ∈ es, e.isUpdate = false) →
        rowsTruthy (runU es) ∧ rowsTruthy (runB es)) := by
  refine ⟨?_, rowsTruthy_cleaned, ?_⟩
  · intro newRow prev hnull
    constructor
    · unfold insertUnbounded
      rw [if_neg]
      rw [hnull]
      simp [jsTruthy]
    · unfold insertBounded
      rw [if_neg]
      rw [hnull]
      simp [jsTruthy]
  · intro es hup
    exact ⟨rowsTruthy_foldl_applyEventU es [] (by intro r hr; simp at hr) hup,
           rowsTruthy_foldl_applyEventB es [] (by intro r hr; simp at hr) hup⟩

/-- Concrete instance of `gallery_absent_url_amended`: an insert with a
null url is dropped, and an update-free sequence leaves only truthy
urls. -/
theorem gallery_absent_url_amended_witness :
    insertUnbounded ⟨"n", none, none⟩ [⟨"a", some "u1", none⟩] = [⟨"a", some "u1", none⟩] ∧
    rowsTruthy (runU [GalleryEvent.insert ⟨"a", some "u1", none⟩]) :=
  ⟨(gallery_absent_url_amended.1 ⟨"n", none, none⟩ [⟨"a", some "u1", none⟩] rfl).1,
   (gallery_absent_url_amended.2.2 [GalleryEvent.insert ⟨"a", some "u1", none⟩] (by decide)).1⟩

/-! ### Claim C9 — corrected: the truthiness filter guards load and
insert, but not updates -/

lemma ne_of_jsTruthy {u : Option String} (h : jsTruthy u = true) :
    u ≠ some "" ∧ u ≠ none := by
  cases u with
  | none => simp [jsTruthy] at h
  | some s =>
      simp only [jsTruthy, decide_eq_true_eq] at h
      constructor
      · intro hcontra
        have hs : s = "" := by injection hcontra
        exact h hs
      · intro hcontra
        exact Option.noConfusion hcontra

/-- Event sequence that puts a record with an empty-string `image_url`
into the collection: a normal insert followed by an UPDATE whose payload
carries the empty-string url.  The UPDATE handler has no `image_url`
guard, so the merge overwrites the field of the stored record. -/
def c9Events : List GalleryEvent :=
  [GalleryEvent.insert ⟨"1", some "u", none⟩,
   GalleryEvent.update ⟨"1", some "", none⟩]

/-- Counterexample to C9 as stated: after `c9Events` the collection (in
either variant) consists of exactly one record whose `image_url` is the
empty string — so a record with a falsy (empty-string) `image_url` does
appear in the collection despite the load filter and the insert
guard. -/
theorem gallery_empty_url_counterexample :
    runU c9Events = [⟨"1", some "", none⟩] ∧
    runB c9Events = [⟨"1", some "", none⟩] ∧
    (⟨"1", some "", none⟩ : UnlockedRow).image_url = some "" := by
  refine ⟨?_, ?_, rfl⟩ <;> rfl

/-- C9 amended.  The gallery `image_url` filter is a truthiness check,
not an absence check: a row with the empty-string url is dropped by the
initial-load cleaning (prepending it changes nothing), no cleaned row
carries the empty string or null, and the live INSERT handler of either
variant ignores an empty-string url payload; consequently, over event
sequences containing no UPDATE events, no record with an empty-string
(or null) `image_url` ever appears in either variant of the collection.
An UPDATE event, which has no `image_url` guard, can overwrite an
existing record with the empty-string url, which is why updates must be
excluded from the never-appears part. -/
theorem gallery_empty_url_excluded :
    (∀ (data : List UnlockedRow) (r : UnlockedRow), r.image_url = some "" →
        cleaned (r :: data) = cleaned data) ∧
    (∀ data : List UnlockedRow, ∀ r ∈ cleaned data,
        r.image_url ≠ some "" ∧ r.image_url ≠ none) ∧
    (∀ (newRow : UnlockedRow) (prev : List UnlockedRow), newRow.image_url = some "" →
        insertUnbounded newRow prev = prev ∧ insertBounded newRow prev = prev) ∧
    (∀ es : List GalleryEvent, (∀ e ∈ es, e.isUpdate = false) →
        (∀ r ∈ runU es, r.image_url ≠ some "" ∧ r.image_url ≠ none) ∧
        (∀ r ∈ runB es, r.image_url ≠ some "" ∧ r.image_url ≠ none)) := by
  refine ⟨?_, ?_, ?_, ?_⟩
  · intro data r hurl
    unfold cleaned
    rw [List.filter_cons_of_neg]
    rw [hurl]
    simp [jsTruthy]
  · intro data r hr
    exact ne_of_jsTruthy (rowsTruthy_cleaned data r hr)
  · intro newRow prev hurl
    constructor
    · unfold insertUnbounded
      rw [if_neg]
      rw [hurl]
      simp [jsTruthy]
    · unfold insertBounded
      rw [if_neg]
      rw [hurl]
      simp [jsTruthy]
  · intro es hup
    constructor
    · intro r hr
      exact ne_of_jsTruthy
        (rowsTruthy_foldl_applyEventU es [] (by intro x hx; simp at hx) hup r hr)
    · intro r hr
      exact ne_of_jsTruthy
        (rowsTruthy_foldl_applyEventB es [] (by intro x hx; simp at hx) hup r hr)

/-- Concrete instance of `gallery_empty_url_excluded`: a row with the
empty-string url is dropped by the cleaning, its insert is a no-op, and
an update-free run leaves no falsy url in the collection. -/
theorem gallery_empty_url_excluded_witness :
    cleaned [⟨"e", some "", none⟩] = cleaned [] ∧
    insertUnbounded ⟨"e", some "", none⟩ [] = [] ∧
    (∀ r ∈ runU [GalleryEvent.insert ⟨"a", some "u1", none⟩],
        r.image_url ≠ some "" ∧ r.image_url ≠ none) :=
  ⟨gallery_empty_url_excluded.1 [] ⟨"e", some "", none⟩ rfl,
   (gallery_empty_url_excluded.2.2.1 ⟨"e", some "", none⟩ [] rfl).1,
   (gallery_empty_url_excluded.2.2.2 [GalleryEvent.insert ⟨"a", some "u1", none⟩]
      (by decide)).1⟩

/-! ### Claim C5 — corrected: only the unbounded variant surfaces the
load error -/

/-- Result state of the initial bulk load: the collection and the
user-visible error string (the `error` React state of the unbounded
variant). -/
structure GalleryLoadState where
  rows : List UnlockedRow
  error : Option String
deriving DecidableEq

/-- Fallback message used by the unbounded catch block when the caught
failure has no message of its own. -/
def defaultLoadErrorMsg : String := "데이터를 불러오는 중 오류가 발생했습니다."

/-- Initial-load of the unbounded variant: on success the cleaned rows
are stored; on failure the catch block sets the user-visible error
string (the message of the failure, with a default fallback) and the
collection stays empty. -/
def fetchImagesUnbounded (resp : Except (Option String) (List UnlockedRow)) :
    GalleryLoadState :=
  match resp with
  | .ok data => { rows := cleaned data, error := none }
  | .error m => { rows := [], error := some (m.getD defaultLoadErrorMsg) }

/-- Initial-load of the bounded variant: on success the cleaned rows are
truncated to 16; on failure the catch block only calls `console.error` —
no user-visible error state is written and the collection stays empty. -/
def fetchImagesBounded (resp : Except (Option String) (List UnlockedRow)) :
    GalleryLoadState :=
  match resp with
  | .ok data => { rows := (cleaned data).take 16, error := none }
  | .error _ => { rows := [], error := none }

/-- Counterexample to C5 as stated: in the bounded variant a failing
initial load leaves the collection empty but sets no user-visible error
string at all (the failure is only logged to the console), so no error
banner is shown. -/
theorem gallery_load_failure_counterexample :
    (fetchImagesBounded (.error (some "network down"))).rows = [] ∧
    (fetchImagesBounded (.error (some "network down"))).error = none :=
  ⟨rfl, rfl⟩

/-- C5 amended.  When the initial bulk load fails, the unbounded variant
sets a user-visible error string and its collection remains empty, while
the bounded variant leaves its collection empty but surfaces no
user-visible error (the failure is only logged to the console). -/
theorem gallery_load_failure_amended (m : Option String) :
    (fetchImagesUnbounded (.error m)).rows = [] ∧
    (fetchImagesUnbounded (.error m)).error = some (m.getD defaultLoadErrorMsg) ∧
    (fetchImagesBounded (.error m)).rows = [] ∧
    (fetchImagesBounded (.error m)).error = none :=
  ⟨rfl, rfl, rfl, rfl⟩

/-- Concrete instance of `gallery_load_failure_amended`. -/
theorem gallery_load_failure_amended_witness :
    (fetchImagesUnbounded (.error (some "boom"))).rows = [] ∧
    (fetchImagesUnbounded (.error (some "boom"))).error = some "boom" ∧
    (fetchImagesBounded (.error (some "boom"))).rows = [] ∧
    (fetchImagesBounded (.error (some "boom"))).error = none :=
  gallery_load_failure_amended (some "boom")

/-! ### Claim C7 — the user-initiated local delete (bounded variant) -/

/-- Local component state touched by `handleDelete`: the collection, the
per-id in-flight markers (`deleting`) and the transient status text. -/
structure BoundedState where
  rows : List UnlockedRow
  deleting : String → Bool
  statusMsg : String

/-- Outcome of the remote delete-by-id call: success, a returned error
object (`delErr`, carrying a message), or a thrown exception. -/
inductive DeleteResult where
  | ok
  | fail (msg : String)
  | exn (msg : String)
deriving DecidableEq

/-- Everything `handleDelete` leaves behind: the final component state,
the alerts it fired, and the delay (in milliseconds) after which the
scheduled `setTimeout` clears the status message. -/
structure DeleteOutcome where
  state : BoundedState
  alerts : List String
  clearDelayMs : Option ℕ

/-- The `handleDelete` of the bounded gallery variant.  Guard on a falsy
id; mark the id in-flight; run the remote delete; on success filter the
row out of the local collection, on a returned error or an exception
leave the collection untouched and surface the failure (status text and
an alert); in the `finally` block always clear the in-flight marker and
schedule clearing the status message after 3000 ms. -/
def handleDelete (row : UnlockedRow) (res : DeleteResult) (st : BoundedState) :
    DeleteOutcome :=
  if row.id = "" then { state := st, alerts := [], clearDelayMs := none }
  else
    let marked : BoundedState :=
      { st with deleting := fun i => if i = row.id then true else st.deleting i }
    let startMsg := "삭제 시작: id=" ++ row.id
    let afterTry : BoundedState × List String :=
      match res with
      | .ok =>
          ({ marked with
              statusMsg := startMsg ++ "\nDB 삭제 성공" ++ "\n완료 ✅ (Storage 파일은 유지됨)"
              rows := marked.rows.filter fun r => r.id ≠ row.id }, [])
      | .fail m =>
          ({ marked with statusMsg := startMsg ++ "\n[에러] DB 삭제 실패: " ++ m },
           ["DB 삭제 실패:\n" ++ m])
      | .exn m =>
          ({ marked with statusMsg := startMsg ++ "\n[예외] " ++ m },
           ["삭제 중 예외가 발생했습니다.\n콘솔을 확인해 주세요."])
    { state :=
        { afterTry.1 with
            deleting := fun i => if i = row.id then false else afterTry.1.deleting i }
      alerts := afterTry.2
      clearDelayMs := some 3000 }

/-- C7.  For a row with a non-empty id: the local collection loses the
row exactly when the remote delete succeeds; on a returned error or an
exception the collection is untouched and the failure is surfaced
(status text, alert); and in every outcome the in-flight marker for that
id ends cleared and the status message is scheduled to be cleared after
a fixed 3000 ms. -/
theorem handleDelete_spec (row : UnlockedRow) (res : DeleteResult) (st : BoundedState)
    (hid : row.id ≠ "") :
    (res = .ok → (handleDelete row res st).state.rows = st.rows.filter fun r => r.id ≠ row.id) ∧
    (∀ m, res = .fail m →
        (handleDelete row res st).state.rows = st.rows ∧
        (handleDelete row res st).state.statusMsg =
          "삭제 시작: id=" ++ row.id ++ "\n[에러] DB 삭제 실패: " ++ m ∧
        (handleDelete row res st).alerts = ["DB 삭제 실패:\n" ++ m]) ∧
    (∀ m, res = .exn m →
        (handleDelete row res st).state.rows = st.rows ∧
        (handleDelete row res st).state.statusMsg =
          "삭제 시작: id=" ++ row.id ++ "\n[예외] " ++ m ∧
        (handleDelete row res st).alerts =
          ["삭제 중 예외가 발생했습니다.\n콘솔을 확인해 주세요."]) ∧
    (handleDelete row res st).state.deleting row.id = false ∧
    (handleDelete row res st).clearDelayMs = some 3000 := by
  unfold handleDelete
  rw [if_neg hid]
  cases res <;> simp

/-- Concrete instance of `handleDelete_spec`: a failing remote delete
leaves a one-row collection untouched, fires the alert, clears the
marker and schedules the 3000 ms status clear. -/
theorem handleDelete_spec_witness :
    (handleDelete ⟨"a", some "u", none⟩ (.fail "denied")
        ⟨[⟨"a", some "u", none⟩], fun _ => false, ""⟩).state.rows = [⟨"a", some "u", none⟩] ∧
    (handleDelete ⟨"a", some "u", none⟩ (.fail "denied")
        ⟨[⟨"a", some "u", none⟩], fun _ => false, ""⟩).alerts = ["DB 삭제 실패:\n" ++ "denied"] ∧
    (handleDelete ⟨"a", some "u", none⟩ (.fail "denied")
        ⟨[⟨"a", some "u", none⟩], fun _ => false, ""⟩).state.deleting "a" = false ∧
    (handleDelete ⟨"a", some "u", none⟩ (.fail "denied")
        ⟨[⟨"a", some "u", none⟩], fun _ => false, ""⟩).clearDelayMs = some 3000 := by
  have h := handleDelete_spec ⟨"a", some "u", none⟩ (.fail "denied")
    ⟨[⟨"a", some "u", none⟩], fun _ => false, ""⟩ (by decide)
  exact ⟨(h.2.1 "denied" rfl).1, (h.2.1 "denied" rfl).2.2, h.2.2.2.1, h.2.2.2.2⟩

/-! ### Claim C4 — drag translation in the layout editor -/

/-- Geometry of one frame (`views[id] = { x, y, w, h }`); JavaScript
numbers are modelled as rationals. -/
structure FrameView where
  x : ℚ
  y : ℚ
  w : ℚ
  h : ℚ
deriving DecidableEq

/-- JavaScript `Math.round`: round half up (toward positive infinity). -/
def jsRound (q : ℚ) : ℤ := ⌊q + 1 / 2⌋

/-- The `dragging` session captured on pointer-down in `setting.tsx`. -/
structure DragSession where
  id : String
  offsetX : ℚ
  offsetY : ℚ
  canvasLeft : ℚ
  canvasTop : ℚ
  scrollLeft : ℚ
  scrollTop : ℚ
deriving DecidableEq

/-- The `onMove` handler of the drag effect: with no open session the
state is untouched; otherwise the dragged frame (defaulting to
`{x:0, y:0, w:260, h:180}` when missing) moves to
`(clientX - canvasLeft + scrollLeft - offsetX,
clientY - canvasTop + scrollTop - offsetY)`, except that the previous
state is returned unchanged when both rounded coordinates are unchanged
(so the debounced persist effect is not re-triggered). -/
def onMove (dragging : Option DragSession) (clientX clientY : ℚ)
    (views : String → Option FrameView) : String → Option FrameView :=
  match dragging with
  | none => views
  | some d =>
      let cur := (views d.id).getD ⟨0, 0, 260, 180⟩
      let nextX := clientX - d.canvasLeft + d.scrollLeft - d.offsetX
      let nextY := clientY - d.canvasTop + d.scrollTop - d.offsetY
      if jsRound cur.x = jsRound nextX ∧ jsRound cur.y = jsRound nextY then views
      else fun i => if i = d.id then some { cur with x := nextX, y := nextY } else views i

/-- C4.  While a drag session is open, a pointer-move to
`(clientX, clientY)` leaves the state identical when the rounded target
position equals the rounded current position, and otherwise sets exactly
the dragged frame to
`(clientX - canvasLeft + scrollLeft - offsetX,
clientY - canvasTop + scrollTop - offsetY)`, leaving every other frame
untouched. -/
theorem onMove_drag_translation (d : DragSession) (views : String → Option FrameView)
    (clientX clientY : ℚ) :
    ((jsRound ((views d.id).getD ⟨0, 0, 260, 180⟩).x
        = jsRound (clientX - d.canvasLeft + d.scrollLeft - d.offsetX) ∧
      jsRound ((views d.id).getD ⟨0, 0, 260, 180⟩).y
        = jsRound (clientY - d.canvasTop + d.scrollTop - d.offsetY)) →
      onMove (some d) clientX clientY views = views) ∧
    (¬(jsRound ((views d.id).getD ⟨0, 0, 260, 180⟩).x
        = jsRound (clientX - d.canvasLeft + d.scrollLeft - d.offsetX) ∧
       jsRound ((views d.id).getD ⟨0, 0, 260, 180⟩).y
        = jsRound (clientY - d.canvasTop + d.scrollTop - d.offsetY)) →
      (onMove (some d) clientX clientY views) d.id =
        some { (views d.id).getD ⟨0, 0, 260, 180⟩ with
               x := clientX - d.canvasLeft + d.scrollLeft - d.offsetX
               y := clientY - d.canvasTop + d.scrollTop - d.offsetY } ∧
      ∀ j, j ≠ d.id → (onMove (some d) clientX clientY views) j = views j) := by
  constructor
  · intro h
    simp only [onMove]
    rw [if_pos h]
  · intro h
    simp only [onMove]
    rw [if_neg h]
    exact ⟨by rw [if_pos rfl], fun j hj => by rw [if_neg hj]⟩

/-- Frame layout used in the C4 example: `frame-1` sits at `(10, 10)`
with the default size. -/
def exampleViews : String → Option FrameView :=
  fun i => if i = "frame-1" then some ⟨10, 10, 260, 180⟩ else none

/-- Concrete instance of `onMove_drag_translation`: canvas origin
`(100, 50)`, scroll `(0, 0)`, pointer offset `(10, 10)`, move to
`(200, 150)` puts the frame at `(90, 90)`. -/
theorem onMove_drag_translation_witness :
    (onMove (some ⟨"frame-1", 10, 10, 100, 50, 0, 0⟩) 200 150 exampleViews) "frame-1"
      = some ⟨90, 90, 260, 180⟩ := by
  have h := (onMove_drag_translation ⟨"frame-1", 10, 10, 100, 50, 0, 0⟩
    exampleViews 200 150).2 (by norm_num [exampleViews, jsRound])
  rw [h.1]
  norm_num [exampleViews]

/-! ### Claim C2 — bounded upsert keeps the 16 most recent inserts -/

lemma insertBounded_truthy {newRow : UnlockedRow} (prev : List UnlockedRow)
    (h : jsTruthy newRow.image_url = true) :
    insertBounded newRow prev = (newRow :: prev.filter fun r => r.id ≠ newRow.id).take 16 :=
  if_pos h

/-- Closed form of a run of INSERT events against the bounded gallery:
the collection is the reversed event list, followed by the survivors of
the start state, truncated to 16. -/
lemma foldl_insertBounded_eq (es : List UnlockedRow) :
    ∀ l : List UnlockedRow,
      l.length ≤ 16 → (l.map UnlockedRow.id).Nodup → (es.map UnlockedRow.id).Nodup →
      (∀ e ∈ es, jsTruthy e.image_url = true) →
      es.foldl (fun s e => insertBounded e s) l =
        (es.reverse ++ l.filter fun r => r.id ∉ es.map UnlockedRow.id).take 16 := by
  induction es with
  | nil =>
      intro l hlen _ _ _
      simp only [List.foldl_nil, List.reverse_nil, List.map_nil, List.nil_append]
      have : (l.filter fun r => r.id ∉ ([] : List String)) = l := by
        apply List.filter_eq_self.mpr
        intro r _
        simp
      rw [this, List.take_of_length_le hlen]
  | cons e es ih =>
      intro l hlen hnodup hes htruthy
      have htre : jsTruthy e.image_url = true := htruthy e (List.mem_cons_self _ _)
      have heid : e.id ∉ es.map UnlockedRow.id := by
        rw [List.map_cons, List.nodup_cons] at hes
        exact hes.1
      have hestail : (es.map UnlockedRow.id).Nodup := by
        rw [List.map_cons, List.nodup_cons] at hes
        exact hes.2
      -- one step
      rw [List.foldl_cons, insertBounded_truthy l htre]
      set L := l.filter fun r => r.id ≠ e.id with hLdef
      have hLsub : L.Sublist l := l.filter_sublist
      have hLlen : L.length ≤ 16 := le_trans (hLsub.length_le) hlen
      have hLnodup : (L.map UnlockedRow.id).Nodup := (hLsub.map UnlockedRow.id).nodup hnodup
      have hLids : ∀ r ∈ L, r.id ≠ e.id := by
        intro r hr
        have := (List.mem_filter.mp hr).2
        simpa using this
      -- hypotheses of the induction step
      have hl1len : ((e :: L).take 16).length ≤ 16 := List.length_take_le 16 _
      have hl1nodup : (((e :: L).take 16).map UnlockedRow.id).Nodup := by
        refine ((List.take_sublist 16 _).map UnlockedRow.id).nodup ?_
        rw [List.map_cons, List.nodup_cons]
        refine ⟨?_, hLnodup⟩
        intro hmem
        obtain ⟨r, hr, hrid⟩ := List.mem_map.mp hmem
        exact hLids r hr hrid
      have hIH := ih ((e :: L).take 16) hl1len hl1nodup hestail
        (fun x hx => htruthy x (List.mem_cons_of_mem _ hx))
      rw [hIH]
      -- simplify both sides
      have hq_e : (e.id ∉ es.map UnlockedRow.id) := heid
      have htake_cons : (e :: L).take 16 = e :: L.take 15 := List.take_succ_cons
      have hfilter_l1 : (((e :: L).take 16).filter fun r => r.id ∉ es.map UnlockedRow.id)
          = e :: ((L.take 15).filter fun r => r.id ∉ es.map UnlockedRow.id) := by
        rw [htake_cons, List.filter_cons_of_pos (by simpa using hq_e)]
      -- rewrite the target filter over the two-step membership test
      have hfilter_split : (l.filter fun r => r.id ∉ (e :: es).map UnlockedRow.id)
          = L.filter fun r => r.id ∉ es.map UnlockedRow.id := by
        rw [hLdef, List.filter_filter]
        apply List.filter_congr
        intro r _
        simp [List.mem_cons, not_or, Bool.decide_and, Bool.and_comm]
      rw [hfilter_l1, hfilter_split, List.reverse_cons, List.append_assoc]
      simp only [List.singleton_append]
      -- now compare the two truncations
      by_cases hcase : L.length ≤ 15
      · rw [List.take_of_length_le hcase]
      · have hL16 : L.length = 16 := by omega
        set q : UnlockedRow → Bool := fun r => r.id ∉ es.map UnlockedRow.id with hqdef
        have hsplitL : L.filter q = (L.take 15).filter q ++ (L.drop 15).filter q := by
          rw [← List.filter_append, List.take_append_drop]
        rw [hsplitL]
        have hassoc : List.reverse es ++ e :: ((L.take 15).filter q ++ (L.drop 15).filter q)
            = (List.reverse es ++ e :: (L.take 15).filter q) ++ (L.drop 15).filter q := by
          simp [List.append_assoc]
        rw [hassoc]
        -- the front block already has at least 16 entries
        have h15 : (L.take 15).length = 15 := by
          rw [List.length_take]
          omega
        have hperm := List.filter_append_perm q (L.take 15)
        have hsumlen : ((L.take 15).filter q).length
            + ((L.take 15).filter fun r => !(q r)).length = 15 := by
          have := hperm.length_eq
          rw [List.length_append] at this
          omega
        have hbadsub : ((L.take 15).filter fun r => !(q r)).Sublist l :=
          ((List.filter_sublist _).trans (List.take_sublist 15 L)).trans hLsub
        have hbadnodup : (((L.take 15).filter fun r => !(q r)).map UnlockedRow.id).Nodup :=
          (hbadsub.map UnlockedRow.id).nodup hnodup
        have hbadmem : (((L.take 15).filter fun r => !(q r)).map UnlockedRow.id)
            ⊆ es.map UnlockedRow.id := by
          intro x hx
          obtain ⟨r, hr, hrid⟩ := List.mem_map.mp hx
          have := (List.mem_filter.mp hr).2
          rw [hqdef] at this
          simp only [Bool.not_eq_eq_eq_not, Bool.not_true, decide_eq_false_iff_not,
            Decidable.not_not] at this
          rw [← hrid]
          exact this
        have hbadlen : ((L.take 15).filter fun r => !(q r)).length ≤ es.length := by
          have := (hbadnodup.subperm hbadmem).length_le
          rw [List.length_map, List.length_map] at this
          exact this
        have hfront : 16 ≤ (List.reverse es ++ e :: (L.take 15).filter q).length := by
          rw [List.length_append, List.length_reverse, List.length_cons]
          omega
        rw [List.take_append_of_le_length hfront]

/-- C2.  In the bounded variant, a live insert with a present (truthy)
`imageUrl` removes every record with the same id, prepends the new
record, and truncates the list to its first 16 entries; consequently,
after at least 16 inserts with pairwise distinct ids and present urls
(from any reachable start state: at most 16 records, distinct ids), the
collection has exactly 16 records whose ids are exactly the 16 most
recently inserted ids, newest first. -/
theorem bounded_insert_upsert_and_cap :
    (∀ (newRow : UnlockedRow) (prev : List UnlockedRow), jsTruthy newRow.image_url = true →
        insertBounded newRow prev =
          (newRow :: prev.filter fun r => r.id ≠ newRow.id).take 16) ∧
    (∀ (start es : List UnlockedRow),
        start.length ≤ 16 → (start.map UnlockedRow.id).Nodup →
        (es.map UnlockedRow.id).Nodup → (∀ e ∈ es, jsTruthy e.image_url = true) →
        16 ≤ es.length →
        (es.foldl (fun s e => insertBounded e s) start).length = 16 ∧
        (es.foldl (fun s e => insertBounded e s) start).map UnlockedRow.id =
          ((es.map UnlockedRow.id).reverse).take 16) := by
  constructor
  · intro newRow prev h
    exact insertBounded_truthy prev h
  · intro start es hlen hnodup hes htruthy h16
    rw [foldl_insertBounded_eq es start hlen hnodup hes htruthy]
    have hrev : 16 ≤ es.reverse.length := by
      rw [List.length_reverse]
      exact h16
    rw [List.take_append_of_le_length hrev]
    constructor
    · rw [List.length_take, List.length_reverse]
      omega
    · rw [List.map_take, List.map_reverse]

/-- Seventeen INSERT payloads with pairwise distinct ids and present
urls. -/
def c2Events : List UnlockedRow :=
  (List.range 17).map fun n => ⟨toString n, some "url", none⟩

/-- Concrete instance of `bounded_insert_upsert_and_cap`: after the 17
inserts of `c2Events` (from the empty collection) the bounded gallery
has exactly 16 records, the 16 most recent ids newest first. -/
theorem bounded_insert_upsert_and_cap_witness :
    (c2Events.foldl (fun s e => insertBounded e s) []).length = 16 ∧
    (c2Events.foldl (fun s e => insertBounded e s) []).map UnlockedRow.id =
      ((c2Events.map UnlockedRow.id).reverse).take 16 :=
  bounded_insert_upsert_and_cap.2 [] c2Events (by decide) (by decide)
    (by decide) (by decide) (by decide)

/-! ### Duplicate cleanup (`handleCleanup` in `setting.tsx`) -/

/-- Row of the `lockeddata` table restricted to the fields the cleanup
reads (`id, nfc_id, created_at`), with `created_at` modelled as the
parsed timestamp. -/
structure LockedRow where
  id : String
  nfc_id : Option String
  created_at : Option ℤ
deriving DecidableEq, Repr

/-- Grouping key of the cleanup, the string coercion of
`row.nfc_id ?? empty`: a null `nfc_id` is coerced to the empty
string. -/
def lockedKey (r : LockedRow) : String := r.nfc_id.getD ""

/-- Sort key `a.created_at ? Date.parse(a.created_at) : 0`: an absent
timestamp counts as epoch zero. -/
def lockedTime (r : LockedRow) : ℤ := r.created_at.getD 0

/-- Order imposed by the cleanup comparator `(a, b) => tb - ta`: `a` may
come before `b` exactly when `a` is at least as new.  A stable sort by
this comparator is modelled by insertion sort. -/
def newerFirst (a b : LockedRow) : Prop := lockedTime b ≤ lockedTime a

instance : DecidableRel newerFirst := fun a b =>
  inferInstanceAs (Decidable (lockedTime b ≤ lockedTime a))

instance : IsTotal LockedRow newerFirst := ⟨fun _ _ => le_total _ _⟩

instance : IsTrans LockedRow newerFirst := ⟨fun _ _ _ hab hbc => le_trans hbc hab⟩

/-- Keys in first-appearance order, as produced by filling a JavaScript
object (`byNfc`) while traversing the rows. -/
def dedupKeysAux (seen : List String) : List String → List String
  | [] => []
  | k :: ks => if k ∈ seen then dedupKeysAux seen ks else k :: dedupKeysAux (k :: seen) ks

/-- The keys of the `byNfc` grouping object. -/
def groupKeys (rows : List LockedRow) : List String :=
  dedupKeysAux [] (rows.map lockedKey)

/-- The group stored under key `k` in `byNfc`: the rows whose coerced
key equals `k`, in traversal order. -/
def nfcGroup (rows : List LockedRow) (k : String) : List LockedRow :=
  rows.filter fun r => lockedKey r = k

/-- Ids marked for deletion within one group: nothing for a group of at
most one row; otherwise sort the group newest-first and take every row
except the last (the single oldest), keeping only truthy ids
(`r.id && idsToDelete.push(r.id)`). -/
def groupDeletions (g : List LockedRow) : List String :=
  if g.length ≤ 1 then []
  else (((List.insertionSort newerFirst g).take (g.length - 1)).map LockedRow.id).filter
    fun i => i ≠ ""

/-- The full `idsToDelete` list of `handleCleanup`, built group by
group. -/
def cleanupIdsToDelete (rows : List LockedRow) : List String :=
  (groupKeys rows).flatMap fun k => groupDeletions (nfcGroup rows k)

lemma mem_dedupKeysAux (a : String) :
    ∀ (l seen : List String), a ∈ dedupKeysAux seen l ↔ a ∈ l ∧ a ∉ seen := by
  intro l
  induction l with
  | nil => intro seen; simp [dedupKeysAux]
  | cons k ks ih =>
      intro seen
      unfold dedupKeysAux
      by_cases hk : k ∈ seen
      · rw [if_pos hk, ih seen]
        constructor
        · rintro ⟨hmem, hnot⟩
          exact ⟨List.mem_cons_of_mem _ hmem, hnot⟩
        · rintro ⟨hmem, hnot⟩
          rcases List.mem_cons.mp hmem with h | h
          · exact absurd (h ▸ hk) hnot
          · exact ⟨h, hnot⟩
      · rw [if_neg hk]
        constructor
        · intro hmem
          rcases List.mem_cons.mp hmem with h | h
          · exact ⟨h ▸ List.mem_cons_self _ _, h ▸ hk⟩
          · obtain ⟨h1, h2⟩ := (ih (k :: seen)).mp h
            refine ⟨List.mem_cons_of_mem _ h1, ?_⟩
            intro hcon
            exact h2 (List.mem_cons_of_mem _ hcon)
        · rintro ⟨hmem, hnot⟩
          by_cases hak : a = k
          · exact hak ▸ List.mem_cons_self _ _
          · rcases List.mem_cons.mp hmem with h | h
            · exact absurd h hak
            · refine List.mem_cons_of_mem _ ((ih (k :: seen)).mpr ⟨h, ?_⟩)
              intro hcon
              rcases List.mem_cons.mp hcon with h2 | h2
              · exact hak h2
              · exact hnot h2

lemma mem_groupKeys {rows : List LockedRow} {k : String} :
    k ∈ groupKeys rows ↔ k ∈ rows.map lockedKey := by
  rw [groupKeys, mem_dedupKeysAux]
  simp

lemma mem_nfcGroup {rows : List LockedRow} {k : String} {r : LockedRow} :
    r ∈ nfcGroup rows k ↔ r ∈ rows ∧ lockedKey r = k := by
  simp [nfcGroup]

lemma two_le_length_of_two_mem {α : Type} {a b : α} {l : List α}
    (ha : a ∈ l) (hb : b ∈ l) (hab : a ≠ b) : 2 ≤ l.length := by
  match l with
  | [] => exact absurd ha (List.not_mem_nil a)
  | [x] =>
      rw [List.mem_singleton] at ha hb
      exact absurd (ha.trans hb.symm) hab
  | x :: y :: t => simp [List.length_cons]

/-- Characterisation of the rows kept in the front (newer) part of the
sorted group: with tie-free timestamps, a group member is in the sorted
list minus its last element exactly when some group member is strictly
older. -/
lemma mem_take_pred_sorted (g : List LockedRow) (hnd : g.Nodup)
    (htg : ∀ a ∈ g, ∀ b ∈ g, lockedTime a = lockedTime b → a = b)
    (r : LockedRow) (hr : r ∈ g) :
    r ∈ (List.insertionSort newerFirst g).take (g.length - 1) ↔
      ∃ p ∈ g, lockedTime p < lockedTime r := by
  set s := List.insertionSort newerFirst g with hsdef
  have hperm : s.Perm g := List.perm_insertionSort newerFirst g
  have hlen : s.length = g.length := hperm.length_eq
  have hsorted : List.Sorted newerFirst s := List.sorted_insertionSort newerFirst g
  have hnds : s.Nodup := (hperm.nodup_iff).mpr hnd
  have hsne : s ≠ [] := by
    intro hcon
    rw [hcon] at hlen
    have := List.ne_nil_of_mem hr
    cases g with
    | nil => exact this rfl
    | cons x t => simp at hlen
  have htake : s.take (g.length - 1) = s.dropLast := by
    rw [List.dropLast_eq_take, hlen]
  set last := s.getLast hsne with hlastdef
  have hsplit : s.dropLast ++ [last] = s := List.dropLast_append_getLast hsne
  have hlast_mem_s : last ∈ s := List.getLast_mem hsne
  have hlast_mem : last ∈ g := hperm.subset hlast_mem_s
  have hmin : ∀ x ∈ s.dropLast, lockedTime last ≤ lockedTime x := by
    intro x hx
    have hpw : List.Pairwise newerFirst (s.dropLast ++ [last]) := by
      rw [hsplit]
      exact hsorted
    have := (List.pairwise_append.mp hpw).2.2 x hx last (List.mem_singleton_self _)
    exact this
  have hmin_all : ∀ x ∈ s, lockedTime last ≤ lockedTime x := by
    intro x hx
    rw [← hsplit] at hx
    rcases List.mem_append.mp hx with h | h
    · exact hmin x h
    · rw [List.mem_singleton.mp h]
  have hlast_not_drop : last ∉ s.dropLast := by
    intro hcon
    have hnds2 : (s.dropLast ++ [last]).Nodup := by
      rw [hsplit]
      exact hnds
    obtain ⟨-, -, hdisj⟩ := List.nodup_append.mp hnds2
    exact hdisj hcon (List.mem_singleton_self _)
  rw [htake]
  constructor
  · intro hmem
    refine ⟨last, hlast_mem, ?_⟩
    have hle : lockedTime last ≤ lockedTime r := hmin r hmem
    refine lt_of_le_of_ne hle ?_
    intro heq
    have : last = r := htg last hlast_mem r hr heq
    exact hlast_not_drop (this ▸ hmem)
  · rintro ⟨p, hp, hplt⟩
    have hrs : r ∈ s := hperm.mem_iff.mpr hr
    rw [← hsplit] at hrs
    rcases List.mem_append.mp hrs with h | h
    · exact h
    · exfalso
      have hrlast : r = last := List.mem_singleton.mp h
      have hps : p ∈ s := hperm.mem_iff.mpr hp
      have := hmin_all p hps
      rw [← hrlast] at this
      exact absurd hplt (not_lt.mpr this)

/-- Membership characterisation of the cleanup deletion list: under
distinct non-empty ids and tie-free timestamps within each coerced-key
group, a row is marked for deletion exactly when some row with the same
coerced key is strictly older. -/
theorem cleanup_mem_iff (rows : List LockedRow)
    (hid : (rows.map LockedRow.id).Nodup)
    (hne : ∀ r ∈ rows, r.id ≠ "")
    (ht : ∀ r ∈ rows, ∀ p ∈ rows,
        lockedKey r = lockedKey p → lockedTime r = lockedTime p → r = p) :
    ∀ r ∈ rows, (r.id ∈ cleanupIdsToDelete rows ↔
      ∃ p ∈ rows, lockedKey p = lockedKey r ∧ lockedTime p < lockedTime r) := by
  intro r hr
  have hinj : ∀ x ∈ rows, ∀ y ∈ rows, x.id = y.id → x = y := by
    intro x hx y hy
    exact List.inj_on_of_nodup_map hid hx hy
  have hgsub : ∀ k, (nfcGroup rows k).Sublist rows := fun k => rows.filter_sublist
  have hgnodup : ∀ k, (nfcGroup rows k).Nodup := by
    intro k
    exact List.Nodup.of_map LockedRow.id (((hgsub k).map LockedRow.id).nodup hid)
  have hgt : ∀ k, ∀ a ∈ nfcGroup rows k, ∀ b ∈ nfcGroup rows k,
      lockedTime a = lockedTime b → a = b := by
    intro k a ha b hb heq
    obtain ⟨ha1, ha2⟩ := mem_nfcGroup.mp ha
    obtain ⟨hb1, hb2⟩ := mem_nfcGroup.mp hb
    exact ht a ha1 b hb1 (ha2.trans hb2.symm) heq
  rw [cleanupIdsToDelete, List.mem_flatMap]
  constructor
  · rintro ⟨k, -, hmem⟩
    rw [groupDeletions] at hmem
    split at hmem
    · exact absurd hmem (List.not_mem_nil _)
    · rename_i hglen
      have hmem2 := (List.mem_filter.mp hmem).1
      obtain ⟨x, hx, hxid⟩ := List.mem_map.mp hmem2
      have hxsort : x ∈ List.insertionSort newerFirst (nfcGroup rows k) :=
        (List.take_sublist _ _).mem hx
      have hxg : x ∈ nfcGroup rows k :=
        (List.perm_insertionSort newerFirst _).subset hxsort
      have hxrows : x ∈ rows := (mem_nfcGroup.mp hxg).1
      have hxr : x = r := hinj x hxrows r hr hxid
      rw [hxr] at hxg hx
      have hkey : lockedKey r = k := (mem_nfcGroup.mp hxg).2
      obtain ⟨p, hp, hplt⟩ :=
        (mem_take_pred_sorted (nfcGroup rows k) (hgnodup k) (hgt k) r hxg).mp hx
      obtain ⟨hp1, hp2⟩ := mem_nfcGroup.mp hp
      exact ⟨p, hp1, hp2.trans hkey.symm, hplt⟩
  · rintro ⟨p, hp, hpkey, hplt⟩
    refine ⟨lockedKey r, mem_groupKeys.mpr (List.mem_map.mpr ⟨r, hr, rfl⟩), ?_⟩
    have hrg : r ∈ nfcGroup rows (lockedKey r) := mem_nfcGroup.mpr ⟨hr, rfl⟩
    have hpg : p ∈ nfcGroup rows (lockedKey r) := mem_nfcGroup.mpr ⟨hp, hpkey⟩
    have hpne : p ≠ r := by
      intro hcon
      rw [hcon] at hplt
      exact lt_irrefl _ hplt
    have hglen2 : 2 ≤ (nfcGroup rows (lockedKey r)).length :=
      two_le_length_of_two_mem hpg hrg hpne
    rw [groupDeletions, if_neg (by omega)]
    refine List.mem_filter.mpr ⟨?_, by simpa using hne r hr⟩
    refine List.mem_map.mpr ⟨r, ?_, rfl⟩
    exact (mem_take_pred_sorted (nfcGroup rows (lockedKey r)) (hgnodup _) (hgt _) r hrg).mpr
      ⟨p, hpg, hplt⟩

/-! ### Claim C3 -/

/-- C3.  The cleanup deletes exactly the rows that share a group (by
coerced `groupKey`) with a strictly older row — equivalently, the rows
of a group with more than one member that are not its single oldest
member (well defined thanks to the tie-free-timestamp hypothesis); in
particular, on
`[{id 1, key A, t1}, {id 2, key A, t2 > t1}, {id 3, key B, t3}]`
exactly id 2 is deleted and ids 1 and 3 survive. -/
theorem cleanup_deletes_newer_duplicates :
    (∀ rows : List LockedRow,
        (rows.map LockedRow.id).Nodup →
        (∀ r ∈ rows, r.id ≠ "") →
        (∀ r ∈ rows, ∀ p ∈ rows,
            lockedKey r = lockedKey p → lockedTime r = lockedTime p → r = p) →
        ∀ r ∈ rows, (r.id ∈ cleanupIdsToDelete rows ↔
          ∃ p ∈ rows, lockedKey p = lockedKey r ∧ lockedTime p < lockedTime r)) ∧
    (∀ t1 t2 t3 : ℤ, t1 < t2 →
        cleanupIdsToDelete
          [⟨"1", some "A", some t1⟩, ⟨"2", some "A", some t2⟩, ⟨"3", some "B", some t3⟩]
          = ["2"]) := by
  refine ⟨cleanup_mem_iff, ?_⟩
  intro t1 t2 t3 h12
  have hcmp : (t2 ≤ t1) = False := eq_false (not_le.mpr h12)
  simp [cleanupIdsToDelete, groupKeys, dedupKeysAux, nfcGroup, groupDeletions,
    List.insertionSort, List.orderedInsert, lockedKey, lockedTime, newerFirst, hcmp]

/-- Concrete instance of `cleanup_deletes_newer_duplicates` at
`t1 = 0 < t2 = 1`, `t3 = 5`. -/
theorem cleanup_deletes_newer_duplicates_witness :
    cleanupIdsToDelete
      [⟨"1", some "A", some 0⟩, ⟨"2", some "A", some 1⟩, ⟨"3", some "B", some 5⟩]
      = ["2"] :=
  cleanup_deletes_newer_duplicates.2 0 1 5 (by decide)

/-! ### Claim C10 — corrected: the coerced group may also contain
literal empty-string keys -/

/-- Locked rows with two null-`nfc_id` rows (id 1 the older of the two)
and one row whose `nfc_id` is the literal empty string and is older than
both. -/
def c10Rows : List LockedRow :=
  [⟨"1", none, some 5⟩, ⟨"2", none, some 6⟩, ⟨"3", some "", some 1⟩]

/-- Counterexample to C10 as stated: in `c10Rows` the rows with a null
`nfc_id` are exactly ids 1 and 2, id 1 being the single oldest of them —
yet id 1 is also deleted, because the coerced empty-string group
additionally contains row 3 (literal empty-string `nfc_id`), which is
older still. -/
theorem cleanup_null_nfc_counterexample :
    (c10Rows.filter fun r => r.nfc_id.isNone)
      = [⟨"1", none, some 5⟩, ⟨"2", none, some 6⟩] ∧
    lockedTime ⟨"1", none, some 5⟩ < lockedTime ⟨"2", none, some 6⟩ ∧
    cleanupIdsToDelete c10Rows = ["2", "1"] := by
  refine ⟨?_, ?_, ?_⟩ <;> decide

/-- C10 amended.  A null `nfc_id` is coerced to the empty-string key
before grouping, so all null-keyed rows land in one group — together
with any rows whose `nfc_id` is the literal empty string; under the
usual hypotheses a null-keyed row is deleted exactly when some row of
that combined empty-string group is strictly older. -/
theorem cleanup_null_nfc_amended :
    (∀ r : LockedRow, r.nfc_id = none → lockedKey r = "") ∧
    (∀ rows : List LockedRow,
        (rows.map LockedRow.id).Nodup →
        (∀ r ∈ rows, r.id ≠ "") →
        (∀ r ∈ rows, ∀ p ∈ rows,
            lockedKey r = lockedKey p → lockedTime r = lockedTime p → r = p) →
        ∀ r ∈ rows, r.nfc_id = none →
          (r.id ∈ cleanupIdsToDelete rows ↔
            ∃ p ∈ rows, lockedKey p = "" ∧ lockedTime p < lockedTime r)) := by
  constructor
  · intro r hnull
    rw [lockedKey, hnull]
    rfl
  · intro rows hid hne ht r hr hnull
    have hkey : lockedKey r = "" := by rw [lockedKey, hnull]; rfl
    have := cleanup_mem_iff rows hid hne ht r hr
    rw [hkey] at this
    exact this

/-- Concrete instance of `cleanup_null_nfc_amended`: with two null-key
rows, the newer one (id 2) is deleted because the older one (id 1)
shares the coerced empty-string key. -/
theorem cleanup_null_nfc_amended_witness :
    "2" ∈ cleanupIdsToDelete [⟨"1", none, some 5⟩, ⟨"2", none, some 6⟩] := by
  have h := cleanup_null_nfc_amended.2
    [⟨"1", none, some 5⟩, ⟨"2", none, some 6⟩]
    (by decide) (by decide) (by decide)
    ⟨"2", none, some 6⟩ (by decide) rfl
  exact h.mpr ⟨⟨"1", none, some 5⟩, by decide, rfl, by decide⟩

end Peiyao
